import Mathlib

/-
Verification development for the WSIA asteroid wave-simulation pipeline.
The definitions below are shallow embeddings of the Python sources:
  lib/write_par_file.py, lib/tomography_model.py,
  lib/write_source_station.py, lib/zoom.py.
Python floats are modelled as exact rationals, strings as lists of
characters, and fallible operations return Option or Except.  Decimal
formatting is implemented on numerator/denominator integer arithmetic so
that every formatting function evaluates inside the kernel.
-/

namespace Py

/-- Python whitespace class used by the regex shorthand and by str.strip
(ASCII fragment: space, tab, newline, carriage return, vertical tab,
form feed). -/
def pyIsSpace (c : Char) : Bool :=
  c = ' ' || c = '\t' || c = '\n' || c = '\r' || c = '\x0b' || c = '\x0c'

/-- Semantics of Python sep.join(xs). -/
def pyJoin (sep : List Char) : List (List Char) → List Char
  | [] => []
  | [a] => a
  | a :: b :: t => a ++ sep ++ pyJoin sep (b :: t)

/-- Semantics of Python s.rstrip(c) for a single character c. -/
def rstripChar (c : Char) (s : List Char) : List Char :=
  ((s.reverse).dropWhile (fun d => d = c)).reverse

/-- Semantics of Python s.strip() (whitespace on both ends). -/
def pyStrip (s : List Char) : List Char :=
  ((s.dropWhile pyIsSpace).reverse.dropWhile pyIsSpace).reverse

/-- Semantics of Python s.ljust(w): pad on the right with spaces up to
width w, never truncating. -/
def ljust (s : List Char) (w : ℕ) : List Char :=
  s ++ List.replicate (w - s.length) ' '

/-- Fuel-driven decimal digit accumulator (the fuel bounds the recursion
structurally so the kernel can evaluate it). -/
def natDigitsCore : ℕ → ℕ → List Char → List Char
  | 0, _, acc => acc
  | fuel + 1, n, acc =>
      if n < 10 then Char.ofNat (48 + n) :: acc
      else natDigitsCore fuel (n / 10) (Char.ofNat (48 + n % 10) :: acc)

/-- Decimal rendering of a natural number, as Python str. -/
def natRender (n : ℕ) : List Char := natDigitsCore (n + 1) n []

/-- Decimal rendering of an integer, as Python str. -/
def intRender (z : ℤ) : List Char :=
  if z < 0 then '-' :: natRender z.natAbs else natRender z.natAbs

/-- Round the fraction a / b (with b positive) to the nearest integer,
ties to even; this is the rounding used by Python float formatting. -/
def roundHalfEvenFrac (a : ℤ) (b : ℕ) : ℤ :=
  let f := a.fdiv b
  let r2 := 2 * (a - f * b)
  if r2 < (b : ℤ) then f
  else if (b : ℤ) < r2 then f + 1
  else if f % 2 = 0 then f else f + 1

end Py

namespace WriteParFile

open Py

/-- A Python value as passed in the modifications dictionary of
modify_par_file. -/
inductive PyValue where
  | pyFloat (q : ℚ)
  | pyBool (b : Bool)
  | pyInt (n : ℤ)
  | pyStr (s : String)
deriving DecidableEq

/-- 10^10, the scale of the ".10f" format used by format_value. -/
def tenPow10 : ℕ := 10000000000

/-- Fixed ".10f" rendering of a nonnegative scaled integer: integer part,
a dot, then exactly ten fractional digits. -/
def fixed10Nat (n : ℕ) : List Char :=
  natRender (n / tenPow10) ++
    '.' :: (List.replicate (10 - (natRender (n % tenPow10)).length) '0'
              ++ natRender (n % tenPow10))

/-- Python f-string ".10f" rendering of a rational (models formatting of
the float value in format_value): the value scaled by 10^10 is rounded
half-to-even and printed with ten fractional digits. -/
def fixed10 (q : ℚ) : List Char :=
  if q.num < 0 then
    '-' :: fixed10Nat (roundHalfEvenFrac (-q.num * (tenPow10 : ℤ)) q.den).toNat
  else fixed10Nat (roundHalfEvenFrac (q.num * (tenPow10 : ℤ)) q.den).toNat

/-- The ".10f" rendering with trailing zeros stripped, as in
format_value. -/
def stripped10 (q : ℚ) : List Char := rstripChar '0' (fixed10 q)

/-- Python split on dot, last component: the suffix after the last dot
(format_value applies it to the stripped rendering, which always
contains a dot). -/
def fracPart (s : List Char) : List Char :=
  ((s.reverse).takeWhile (fun c => c ≠ '.')).reverse

/-- Two-digit (minimum) signed exponent rendering of Python "e"
formatting. -/
def expRender (e : ℤ) : List Char :=
  (if e < 0 then ['-'] else ['+']) ++
    (List.replicate (2 - (natRender e.natAbs).length) '0' ++ natRender e.natAbs)

/-- Number of decimal digits of a natural number. -/
def digitLen (n : ℕ) : ℕ := (natRender n).length

/-- Floor of the base-10 logarithm of a / b for positive naturals: the
digit-length difference is correct up to one, and a single comparison
settles which. -/
def decExpFrac (a b : ℕ) : ℤ :=
  let e0 : ℤ := (digitLen a : ℤ) - (digitLen b : ℤ)
  if b * 10 ^ e0.toNat ≤ a * 10 ^ (-e0).toNat then e0 else e0 - 1

/-- Python ".1e" scientific rendering of the positive fraction a / b:
one leading digit, one rounded fractional digit, and the signed
exponent; a rounded mantissa of 10.0 carries into the exponent. -/
def sci1Core (a b : ℕ) : List Char :=
  let e := decExpFrac a b
  let m := roundHalfEvenFrac ((a : ℤ) * 10 * (10 ^ (-e).toNat : ℕ)) (b * 10 ^ e.toNat)
  let m2 := if 100 ≤ m then (10 : ℤ) else m
  let e2 := if 100 ≤ m then e + 1 else e
  natRender (m2.toNat / 10) ++ '.' :: natRender (m2.toNat % 10) ++ 'e' :: expRender e2

/-- Python ".1e" scientific rendering of a rational. -/
def sci1 (q : ℚ) : List Char :=
  if q.num = 0 then ['0', '.', '0', 'e', '+', '0', '0']
  else if q.num < 0 then '-' :: sci1Core q.num.natAbs q.den
  else sci1Core q.num.natAbs q.den

/-- format_value from lib/write_par_file.py: floats whose ".10f"
rendering keeps more than three fractional digits after stripping
trailing zeros go to ".1e" scientific notation, other floats to the
stripped fixed rendering; booleans become the Fortran literals; every
other value is rendered with str. -/
def format_value : PyValue → String
  | PyValue.pyFloat q =>
      if 3 < (fracPart (stripped10 q)).length then String.mk (sci1 q)
      else String.mk (rstripChar '.' (stripped10 q))
  | PyValue.pyBool b => if b then ".true." else ".false."
  | PyValue.pyInt n => String.mk (intRender n)
  | PyValue.pyStr s => s

/-- Index of the last '=' at position at least 1 in a token, if any. -/
def lastEqIdx (t : List Char) : Option ℕ :=
  (List.range t.length).foldl
    (fun acc i => if 1 ≤ i ∧ t.getD i ' ' = '=' then some i else acc) none

/-- Match of the modify_par_file regex (leading whitespace and a
nonspace run, then the equal-sign segment with surrounding whitespace,
then the rest of the line) against one line, with the greedy
backtracking semantics of the Python engine: the nonspace run is as
long as possible subject to an '=' following, so the '=' chosen is
either the first nonspace character after the run or the last '='
inside the run.  Returns the three groups. -/
def par_line_match (line : List Char) :
    Option (List Char × List Char × List Char) :=
  let w := line.takeWhile pyIsSpace
  let rest0 := line.dropWhile pyIsSpace
  let t := rest0.takeWhile (fun c => !pyIsSpace c)
  let afterT := rest0.dropWhile (fun c => !pyIsSpace c)
  if t.isEmpty then none
  else
    match afterT.dropWhile pyIsSpace with
    | '=' :: r2 =>
        some (w ++ t,
              afterT.takeWhile pyIsSpace ++ '=' :: r2.takeWhile pyIsSpace,
              r2.dropWhile pyIsSpace)
    | _ =>
        match lastEqIdx t with
        | some k =>
            some (w ++ t.take k,
                  '=' :: (t.drop (k + 1) ++ afterT).takeWhile pyIsSpace,
                  (t.drop (k + 1) ++ afterT).dropWhile pyIsSpace)
        | none => none

/-- Association lookup modelling the Python dict of modifications. -/
def lookupKey (mods : List (String × PyValue)) (k : String) : Option PyValue :=
  (mods.find? (fun kv => kv.fst == k)).map Prod.snd

/-- The per-line transformation of modify_par_file (lines are modelled
without their trailing newline, which the source strips and re-appends):
on a regex match whose stripped key is requested, the line is rebuilt as
name group, equal-sign group, and the formatted new value left-justified
to the old value group's width; otherwise the line passes through
unchanged. -/
def modify_par_line (mods : List (String × PyValue)) (line : List Char) :
    List Char :=
  match par_line_match line with
  | none => line
  | some (g1, g2, g3) =>
      match lookupKey mods (String.mk (pyStrip g1)) with
      | none => line
      | some v => g1 ++ g2 ++ ljust (format_value v).data g3.length

end WriteParFile

namespace TomographyModel

open Py

/-- The ten arguments of create_tomography_model
(lib/tomography_model.py), as exact rationals. -/
structure TomoParams where
  length : ℚ
  width : ℚ
  height : ℚ
  mesh_size : ℚ
  vp_min : ℚ
  vp_max : ℚ
  vs_min : ℚ
  vs_max : ℚ
  rho : ℚ
  gradient : ℚ
deriving DecidableEq

/-- Origin x coordinate: -length / 2. -/
def orig_x (p : TomoParams) : ℚ := -p.length / 2

/-- Origin y coordinate: -width / 2. -/
def orig_y (p : TomoParams) : ℚ := -p.width / 2

/-- Origin z coordinate: -height / 2. -/
def orig_z (p : TomoParams) : ℚ := -p.height / 2

/-- End x coordinate: length / 2. -/
def end_x (p : TomoParams) : ℚ := p.length / 2

/-- End y coordinate: width / 2. -/
def end_y (p : TomoParams) : ℚ := p.width / 2

/-- End z coordinate: height / 2. -/
def end_z (p : TomoParams) : ℚ := p.height / 2

/-- Grid count along x: math.ceil(length / mesh_size), an integer. -/
def nx (p : TomoParams) : ℤ := ⌈p.length / p.mesh_size⌉

/-- Grid count along y: math.ceil(width / mesh_size), an integer. -/
def ny (p : TomoParams) : ℤ := ⌈p.width / p.mesh_size⌉

/-- Grid count along z: math.ceil(height / mesh_size), an integer. -/
def nz (p : TomoParams) : ℤ := ⌈p.height / p.mesh_size⌉

/-- Python range(nx) iterates max(nx, 0) times; toNat models that. -/
def nxN (p : TomoParams) : ℕ := (nx p).toNat

/-- Python range(ny) iterates max(ny, 0) times; toNat models that. -/
def nyN (p : TomoParams) : ℕ := (ny p).toNat

/-- Python range(nz) iterates max(nz, 0) times; toNat models that. -/
def nzN (p : TomoParams) : ℕ := (nz p).toNat

/-- One emitted grid sample: position and material properties. -/
structure Sample where
  x : ℚ
  y : ℚ
  z : ℚ
  vp : ℚ
  vs : ℚ
  rho : ℚ
deriving DecidableEq

/-- The sample produced at grid indices (i, j, k): position offset from
the origin by index times spacing, velocities linear in z via the
gradient, density constant. -/
def sampleAt (p : TomoParams) (i j k : ℕ) : Sample :=
  { x := orig_x p + i * p.mesh_size
  , y := orig_y p + j * p.mesh_size
  , z := orig_z p + k * p.mesh_size
  , vp := p.vp_min + p.gradient * (orig_z p + k * p.mesh_size)
  , vs := p.vs_min + p.gradient * (orig_z p + k * p.mesh_size)
  , rho := p.rho }

/-- The list of data samples in source order: k (z) outermost, then j
(y), then i (x) innermost. -/
def model_values (p : TomoParams) : List Sample :=
  (List.range (nzN p)).flatMap (fun k =>
    (List.range (nyN p)).flatMap (fun j =>
      (List.range (nxN p)).map (fun i => sampleAt p i j k)))

/-- The six numeric fields of a data line, in emitted order. -/
def sample_row (s : Sample) : List ℚ := [s.x, s.y, s.z, s.vp, s.vs, s.rho]

/-- Rendering of a row of numbers separated by single spaces, for a
given rendering of each number (Python renders floats with str; the
renderer is a parameter of the embedding). -/
def render_row (render : ℚ → List Char) (row : List ℚ) : List Char :=
  pyJoin [' '] (row.map render)

/-- Header line 1 contents: the six extents. -/
def header_row1 (p : TomoParams) : List ℚ :=
  [orig_x p, orig_y p, orig_z p, end_x p, end_y p, end_z p]

/-- Header line 2 contents: the spacing three times. -/
def header_row2 (p : TomoParams) : List ℚ :=
  [p.mesh_size, p.mesh_size, p.mesh_size]

/-- Header line 4 contents: velocity bounds and the density twice. -/
def header_row4 (p : TomoParams) : List ℚ :=
  [p.vp_min, p.vp_max, p.vs_min, p.vs_max, p.rho, p.rho]

/-- Header line 3: the integer grid counts, rendered with str. -/
def header_line3 (p : TomoParams) : List Char :=
  intRender (nx p) ++ ' ' :: intRender (ny p) ++ ' ' :: intRender (nz p)

/-- The header string: four lines, each terminated by a newline, built
exactly as the source concatenates them. -/
def header_str (render : ℚ → List Char) (p : TomoParams) : List Char :=
  render_row render (header_row1 p) ++ '\n' ::
    (render_row render (header_row2 p) ++ '\n' ::
      (header_line3 p ++ '\n' ::
        (render_row render (header_row4 p) ++ ['\n'])))

/-- The full file contents: the header followed by the data lines
joined by single newlines (the source writes the header, then the join,
with no final newline). -/
def tomo_file (render : ℚ → List Char) (p : TomoParams) : List Char :=
  header_str render p ++
    pyJoin ['\n'] ((model_values p).map (fun s => render_row render (sample_row s)))

end TomographyModel

namespace WriteSourceStation

/-- The angle table np.arange(0, 361, 5), in degrees: 73 entries,
5 * i for i below 73. -/
def phiar_deg : List ℕ := (List.range 73).map (fun i => 5 * i)

/-- Degrees-to-radians conversion applied to the angle table. -/
noncomputable def phi_rad (d : ℕ) : ℝ := d * Real.pi / 180

/-- The fixed polar angle thetar = 0.5 * pi. -/
noncomputable def thetar : ℝ := 0.5 * Real.pi

/-- One line of the STATIONS file: the station name, the network code,
and the four numeric columns in emitted order. -/
structure StationRow where
  name : String
  network : String
  cols : List ℝ

/-- The row written for ordinal i with table angle d degrees: name
X(i+1), two-letter network code from i, then the columns
y, x, 0.0, z with x = R sin(thetar) cos(phi), y = R sin(thetar)
sin(phi), z = 0. -/
noncomputable def station_row (R : ℝ) (i d : ℕ) : StationRow :=
  { name := "X" ++ toString (i + 1)
  , network := String.mk [Char.ofNat (65 + i / 26), Char.ofNat (65 + i % 26)]
  , cols := [R * Real.sin thetar * Real.sin (phi_rad d),
             R * Real.sin thetar * Real.cos (phi_rad d), 0, 0] }

/-- write_station from lib/write_source_station.py, at the level of
rows: for each ordinal i below ntr the angle phiar[i] is looked up (an
out-of-range lookup raises IndexError, modelled by none) and the row is
built; the row list is produced only if every lookup succeeds. -/
noncomputable def write_station_rows (R : ℝ) (ntr : ℕ) :
    Option (List StationRow) :=
  (List.range ntr).mapM (fun i => (phiar_deg[i]?).map (fun d => station_row R i d))

end WriteSourceStation

namespace Zoom

/-- A vertex of the STL surface, with exact rational coordinates. -/
structure Vec3 where
  x : ℚ
  y : ℚ
  z : ℚ
deriving DecidableEq

/-- A triangle of the surface: three vertices. -/
abbrev Tri := Vec3 × Vec3 × Vec3

/-- Apply a vertex transformation to the three corners of a triangle. -/
def triMap (f : Vec3 → Vec3) (t : Tri) : Tri := (f t.1, f t.2.1, f t.2.2)

/-- model_mesh.vectors.reshape(-1, 3): all vertices of all triangles in
order. -/
def verticesOf (m : List Tri) : List Vec3 :=
  m.flatMap (fun t => [t.1, t.2.1, t.2.2])

/-- np.min over a list of rationals (0 on the empty list, which the
source would reject at runtime). -/
def listMin : List ℚ → ℚ
  | [] => 0
  | a :: t => t.foldl min a

/-- np.max over a list of rationals (0 on the empty list). -/
def listMax : List ℚ → ℚ
  | [] => 0
  | a :: t => t.foldl max a

/-- Componentwise minimum of the vertex coordinates. -/
def minCoords (vs : List Vec3) : Vec3 :=
  ⟨listMin (vs.map Vec3.x), listMin (vs.map Vec3.y), listMin (vs.map Vec3.z)⟩

/-- Componentwise maximum of the vertex coordinates. -/
def maxCoords (vs : List Vec3) : Vec3 :=
  ⟨listMax (vs.map Vec3.x), listMax (vs.map Vec3.y), listMax (vs.map Vec3.z)⟩

/-- calc_dims from lib/zoom.py: returns min coords, max coords, the
componentwise extents, the padded length and width (both the same
value, from the larger of the x and y extents), and the padded height.
The padding rule scales by 1.2 and rounds up to a multiple of 10. -/
def calc_dims (m : List Tri) : Vec3 × Vec3 × Vec3 × ℤ × ℤ × ℤ :=
  let vertices := verticesOf m
  let min_coords := minCoords vertices
  let max_coords := maxCoords vertices
  let dimensions : Vec3 :=
    ⟨max_coords.x - min_coords.x, max_coords.y - min_coords.y,
     max_coords.z - min_coords.z⟩
  let length_width : ℤ := ⌈max dimensions.x dimensions.y * (1.2 : ℚ) / 10⌉ * 10
  let height : ℤ := ⌈dimensions.z * (1.2 : ℚ) / 10⌉ * 10
  (min_coords, max_coords, dimensions, length_width, length_width, height)

/-- The surface after the first step of scale_model: every vertex
coordinate multiplied by the scale factor. -/
def scaledMesh (m : List Tri) (s : ℚ) : List Tri :=
  m.map (triMap (fun v => ⟨v.x * s, v.y * s, v.z * s⟩))

/-- The bounding-box center (min + max) / 2 of a vertex list. -/
def centerOf (vs : List Vec3) : Vec3 :=
  ⟨((minCoords vs).x + (maxCoords vs).x) / 2,
   ((minCoords vs).y + (maxCoords vs).y) / 2,
   ((minCoords vs).z + (maxCoords vs).z) / 2⟩

/-- scale_model from lib/zoom.py: multiply every vertex coordinate by
the scale factor, compute the bounding-box center of the scaled
surface, and translate every vertex by minus that center. -/
def scale_model (m : List Tri) (s : ℚ) : List Tri :=
  (scaledMesh m s).map (triMap (fun v =>
    ⟨v.x - (centerOf (verticesOf (scaledMesh m s))).x,
     v.y - (centerOf (verticesOf (scaledMesh m s))).y,
     v.z - (centerOf (verticesOf (scaledMesh m s))).z⟩))

/-- The error the specification document postulates for a nonpositive
scale factor. -/
inductive ZoomError where
  | invalidScale
deriving DecidableEq

/-- scale_model with an explicit error channel: the source performs no
scale-factor validation at all, so the run always returns ok; the
channel exists to state the specification's error claim against the
code. -/
def scale_model_run (m : List Tri) (s : ℚ) : Except ZoomError (List Tri) :=
  Except.ok (scale_model m s)

end Zoom


/-- C1 counterexample: on the line "NPROC = 4    ! comment" with the
modification NPROC to 1, modify_par_line does not produce
"NPROC = 1    ! comment"; the inline trailing comment is not kept. -/
theorem claim_c1_counterexample :
    WriteParFile.modify_par_line [("NPROC", WriteParFile.PyValue.pyInt 1)]
        "NPROC = 4    ! comment".data
      ≠ "NPROC = 1    ! comment".data := by decide

/-- C1 amended: on the line "NPROC = 4    ! comment" with the
modification NPROC to 1, the rewrite replaces the whole post-equals
remainder (comment included) by the new value padded with spaces to the
remainder's original width: the output is "NPROC = 1" followed by 13
spaces, the total line width is preserved, and re-parsing the output
recovers the key NPROC and the new value 1, but the trailing comment
has been overwritten by spaces. -/
theorem claim_c1_amended :
    WriteParFile.modify_par_line [("NPROC", WriteParFile.PyValue.pyInt 1)]
        "NPROC = 4    ! comment".data
      = "NPROC = 1             ".data ∧
    ("NPROC = 1             ".data).length = ("NPROC = 4    ! comment".data).length ∧
    WriteParFile.par_line_match "NPROC = 1             ".data
      = some ("NPROC".data, " = ".data, "1             ".data) ∧
    Py.pyStrip "1             ".data = "1".data :=
  ⟨by decide, by decide, by decide, by decide⟩

/-- C6: format_value sends the float 1e-4 to the scientific string
"1.0e-04", the integer 8000 to the literal string "8000", the boolean
true to the Fortran literal ".true.", and every float whose stripped
ten-digit fixed rendering keeps at most three fractional digits to that
fixed rendering with trailing zeros and trailing decimal point
stripped. -/
theorem claim_c6_format_value :
    WriteParFile.format_value (WriteParFile.PyValue.pyFloat (1e-4 : ℚ)) = "1.0e-04" ∧
    WriteParFile.format_value (WriteParFile.PyValue.pyInt 8000) = "8000" ∧
    WriteParFile.format_value (WriteParFile.PyValue.pyBool true) = ".true." ∧
    ∀ q : ℚ, (WriteParFile.fracPart (WriteParFile.stripped10 q)).length ≤ 3 →
      WriteParFile.format_value (WriteParFile.PyValue.pyFloat q)
        = String.mk (Py.rstripChar '.' (WriteParFile.stripped10 q)) := by
  refine ⟨?_, by decide, by decide, ?_⟩
  · rw [show (1e-4 : ℚ) = mkRat 1 10000 by
      rw [Rat.mkRat_eq_divInt, Rat.divInt_eq_div]; norm_num]
    decide
  · intro q h
    simp only [WriteParFile.format_value]
    rw [if_neg (by omega)]

/-- C6 witness: the fixed-notation branch evaluated at the concrete
float one half, whose rendering is "0.5". -/
theorem claim_c6_format_value_witness :
    (WriteParFile.fracPart (WriteParFile.stripped10 (mkRat 1 2))).length ≤ 3 ∧
    WriteParFile.format_value (WriteParFile.PyValue.pyFloat (mkRat 1 2))
      = String.mk (Py.rstripChar '.' (WriteParFile.stripped10 (mkRat 1 2))) ∧
    String.mk (Py.rstripChar '.' (WriteParFile.stripped10 (mkRat 1 2))) = "0.5" :=
  ⟨by decide, claim_c6_format_value.2.2.2 (mkRat 1 2) (by decide), by decide⟩

/-- Length of a flatMap whose per-element lists share one length. -/
theorem flatMap_length_const {α β : Type} (f : β → List α) (L : ℕ) :
    ∀ l : List β, (∀ b ∈ l, (f b).length = L) →
      (l.flatMap f).length = l.length * L := by
  intro l
  induction l with
  | nil => intro _; simp
  | cons a t ih =>
      intro h
      simp only [List.flatMap_cons, List.length_append, List.length_cons]
      rw [h a (by simp), ih (fun b hb => h b (by simp [hb]))]
      ring

/-- Indexing into a flatMap whose per-element lists share one length:
position k * L + r lands at offset r inside the image of element k. -/
theorem flatMap_get?_const {α β : Type} (f : β → List α) (L : ℕ) :
    ∀ (l : List β) (k r : ℕ) (b : β), (∀ x ∈ l, (f x).length = L) → r < L →
      l[k]? = some b → (l.flatMap f)[k * L + r]? = (f b)[r]? := by
  intro l
  induction l with
  | nil => intro k r b _ _ hk; simp at hk
  | cons a t ih =>
      intro k r b h hr hk
      cases k with
      | zero =>
          have hab : a = b := by simpa using hk
          subst hab
          simp only [List.flatMap_cons, Nat.zero_mul, Nat.zero_add]
          exact List.getElem?_append_left (by rw [h a (by simp)]; exact hr)
      | succ k =>
          have hk2 : t[k]? = some b := by simpa using hk
          simp only [List.flatMap_cons]
          rw [List.getElem?_append_right (by rw [h a (by simp)]; rw [Nat.succ_mul]; omega)]
          rw [h a (by simp)]
          have he : (k + 1) * L + r - L = k * L + r := by rw [Nat.succ_mul]; omega
          rw [he]
          exact ih k r b (fun x hx => h x (by simp [hx])) hr hk2

/-- The model has nzN * (nyN * nxN) samples. -/
theorem model_values_length (p : TomographyModel.TomoParams) :
    (TomographyModel.model_values p).length
      = TomographyModel.nzN p * (TomographyModel.nyN p * TomographyModel.nxN p) := by
  unfold TomographyModel.model_values
  rw [flatMap_length_const _ (TomographyModel.nyN p * TomographyModel.nxN p)]
  · simp
  · intro k _
    rw [flatMap_length_const _ (TomographyModel.nxN p)]
    · simp
    · intro j _
      simp

/-- The sample stored at flattened index k * (nyN * nxN) + (j * nxN + i)
is the one generated at grid indices (i, j, k). -/
theorem model_values_get? (p : TomographyModel.TomoParams) (i j k : ℕ)
    (hi : i < TomographyModel.nxN p) (hj : j < TomographyModel.nyN p)
    (hk : k < TomographyModel.nzN p) :
    (TomographyModel.model_values p)[k * (TomographyModel.nyN p * TomographyModel.nxN p)
          + (j * TomographyModel.nxN p + i)]?
      = some (TomographyModel.sampleAt p i j k) := by
  have hjlen : ∀ kk ∈ List.range (TomographyModel.nzN p),
      ((List.range (TomographyModel.nyN p)).flatMap (fun j2 =>
        (List.range (TomographyModel.nxN p)).map
          (fun i2 => TomographyModel.sampleAt p i2 j2 kk))).length
        = TomographyModel.nyN p * TomographyModel.nxN p := by
    intro kk _
    rw [flatMap_length_const _ (TomographyModel.nxN p)]
    · simp
    · intro j2 _; simp
  have hr : j * TomographyModel.nxN p + i
      < TomographyModel.nyN p * TomographyModel.nxN p := by
    have h1 : j * TomographyModel.nxN p + i < (j + 1) * TomographyModel.nxN p := by
      rw [Nat.succ_mul]; omega
    have h2 : (j + 1) * TomographyModel.nxN p
        ≤ TomographyModel.nyN p * TomographyModel.nxN p :=
      mul_le_mul_right' hj (TomographyModel.nxN p)
    omega
  unfold TomographyModel.model_values
  rw [flatMap_get?_const _ (TomographyModel.nyN p * TomographyModel.nxN p) _ k _ k
        hjlen hr (List.getElem?_range hk)]
  rw [flatMap_get?_const _ (TomographyModel.nxN p) _ j i j
        (fun j2 _ => by simp) hi (List.getElem?_range hj)]
  rw [List.getElem?_map, List.getElem?_range hi]
  rfl

/-- C2: for positive dimensions and spacing, the grid counts are the
ceilings of dimension over spacing, the model has exactly
nz * ny * nx data samples, iteration is z outermost, y middle, x
innermost (the sample at flattened index k * (ny * nx) + j * nx + i is
the (i, j, k) one), and each sample reads x y z vp vs rho with
vp = vp_min + gradient * z and vs = vs_min + gradient * z. -/
theorem claim_c2_model_grid (p : TomographyModel.TomoParams)
    (hl : 0 < p.length) (hw : 0 < p.width) (hh : 0 < p.height)
    (hs : 0 < p.mesh_size) :
    ((TomographyModel.nxN p : ℤ) = ⌈p.length / p.mesh_size⌉ ∧
     (TomographyModel.nyN p : ℤ) = ⌈p.width / p.mesh_size⌉ ∧
     (TomographyModel.nzN p : ℤ) = ⌈p.height / p.mesh_size⌉) ∧
    (TomographyModel.model_values p).length
      = TomographyModel.nzN p * (TomographyModel.nyN p * TomographyModel.nxN p) ∧
    ∀ i j k, i < TomographyModel.nxN p → j < TomographyModel.nyN p →
      k < TomographyModel.nzN p →
      (TomographyModel.model_values p)[k * (TomographyModel.nyN p * TomographyModel.nxN p)
            + (j * TomographyModel.nxN p + i)]?
        = some { x := -p.length / 2 + i * p.mesh_size
               , y := -p.width / 2 + j * p.mesh_size
               , z := -p.height / 2 + k * p.mesh_size
               , vp := p.vp_min + p.gradient * (-p.height / 2 + k * p.mesh_size)
               , vs := p.vs_min + p.gradient * (-p.height / 2 + k * p.mesh_size)
               , rho := p.rho } := by
  refine ⟨⟨?_, ?_, ?_⟩, model_values_length p, ?_⟩
  · exact Int.toNat_of_nonneg (le_of_lt (Int.ceil_pos.mpr (div_pos hl hs)))
  · exact Int.toNat_of_nonneg (le_of_lt (Int.ceil_pos.mpr (div_pos hw hs)))
  · exact Int.toNat_of_nonneg (le_of_lt (Int.ceil_pos.mpr (div_pos hh hs)))
  · intro i j k hi hj hk
    exact model_values_get? p i j k hi hj hk

/-- C3: the file produced by create_tomography_model begins with
exactly four header lines, in order: the six extents with origin
(-length/2, -width/2, -height/2) and end (length/2, width/2, height/2);
the spacing three times; the counts nx ny nz; and
vp_min vp_max vs_min vs_max rho rho. -/
theorem claim_c3_header (render : ℚ → List Char) (p : TomographyModel.TomoParams) :
    TomographyModel.header_row1 p
      = [-p.length / 2, -p.width / 2, -p.height / 2,
         p.length / 2, p.width / 2, p.height / 2] ∧
    TomographyModel.header_row2 p = [p.mesh_size, p.mesh_size, p.mesh_size] ∧
    TomographyModel.header_line3 p
      = Py.intRender ⌈p.length / p.mesh_size⌉
          ++ ' ' :: Py.intRender ⌈p.width / p.mesh_size⌉
          ++ ' ' :: Py.intRender ⌈p.height / p.mesh_size⌉ ∧
    TomographyModel.header_row4 p
      = [p.vp_min, p.vp_max, p.vs_min, p.vs_max, p.rho, p.rho] ∧
    ∃ rest, TomographyModel.tomo_file render p =
      TomographyModel.render_row render (TomographyModel.header_row1 p) ++ '\n' ::
        (TomographyModel.render_row render (TomographyModel.header_row2 p) ++ '\n' ::
          (TomographyModel.header_line3 p ++ '\n' ::
            (TomographyModel.render_row render (TomographyModel.header_row4 p)
              ++ '\n' :: rest))) := by
  refine ⟨rfl, rfl, rfl, rfl,
    ⟨Py.pyJoin ['\n'] ((TomographyModel.model_values p).map
        (fun s => TomographyModel.render_row render (TomographyModel.sample_row s))), ?_⟩⟩
  unfold TomographyModel.tomo_file TomographyModel.header_str
  simp [List.append_assoc]

/-- mapM over Option succeeds with the pointwise map when every element
succeeds. -/
theorem option_mapM_eq_map {α β : Type} (f : α → Option β) (g : α → β) :
    ∀ l : List α, (∀ a ∈ l, f a = some (g a)) → l.mapM f = some (l.map g) := by
  intro l
  induction l with
  | nil => intro _; rfl
  | cons a t ih =>
      intro h
      rw [List.mapM_cons, h a (by simp), ih (fun x hx => h x (by simp [hx]))]
      rfl

/-- mapM over Option fails when any element fails. -/
theorem option_mapM_eq_none {α β : Type} (f : α → Option β) :
    ∀ (l : List α) (a : α), a ∈ l → f a = none → l.mapM f = none := by
  intro l
  induction l with
  | nil => intro a ha; simp at ha
  | cons b t ih =>
      intro a ha hf
      rw [List.mapM_cons]
      rcases List.mem_cons.mp ha with rfl | ha2
      · rw [hf]; rfl
      · cases hfb : f b with
        | none => rfl
        | some x =>
            rw [ih a ha2 hf]
            rfl

/-- For a station count within the 73-entry angle table, write_station
produces one row per ordinal, with the angle 5 * i degrees at ordinal
i. -/
theorem write_station_rows_le (R : ℝ) (ntr : ℕ) (h : ntr ≤ 73) :
    WriteSourceStation.write_station_rows R ntr
      = some ((List.range ntr).map
          (fun i => WriteSourceStation.station_row R i (5 * i))) := by
  unfold WriteSourceStation.write_station_rows
  apply option_mapM_eq_map
  intro i hi
  have hi73 : i < 73 := lt_of_lt_of_le (List.mem_range.mp hi) h
  have hget : WriteSourceStation.phiar_deg[i]? = some (5 * i) := by
    unfold WriteSourceStation.phiar_deg
    rw [List.getElem?_map, List.getElem?_range hi73]
    rfl
  rw [hget]
  rfl

/-- C4: placeStations with radius 800 and count 72 emits exactly 72
rows; the row of ordinal i is named X followed by i + 1, carries the
two-letter network code chr(65 + i / 26) chr(65 + i mod 26), lists its
numeric columns in the order y x 0.0 z with
x = 800 cos(phi), y = 800 sin(phi), z = 0 at phi = 5 i degrees, and
satisfies x^2 + y^2 = 800^2 exactly. -/
theorem claim_c4_stations (i : ℕ) (h : i < 72) :
    ∃ rows, WriteSourceStation.write_station_rows 800 72 = some rows ∧
      rows.length = 72 ∧
      rows[i]? = some (WriteSourceStation.station_row 800 i (5 * i)) ∧
      (WriteSourceStation.station_row 800 i (5 * i)).name = "X" ++ toString (i + 1) ∧
      (WriteSourceStation.station_row 800 i (5 * i)).network
        = String.mk [Char.ofNat (65 + i / 26), Char.ofNat (65 + i % 26)] ∧
      (WriteSourceStation.station_row 800 i (5 * i)).cols
        = [800 * Real.sin (WriteSourceStation.phi_rad (5 * i)),
           800 * Real.cos (WriteSourceStation.phi_rad (5 * i)), 0, 0] ∧
      (800 * Real.cos (WriteSourceStation.phi_rad (5 * i))) ^ 2
        + (800 * Real.sin (WriteSourceStation.phi_rad (5 * i))) ^ 2 = 800 ^ 2 := by
  have hsin1 : Real.sin WriteSourceStation.thetar = 1 := by
    unfold WriteSourceStation.thetar
    rw [show (0.5 : ℝ) * Real.pi = Real.pi / 2 by ring]
    exact Real.sin_pi_div_two
  refine ⟨_, write_station_rows_le 800 72 (by norm_num), by simp, ?_, rfl, rfl, ?_, ?_⟩
  · rw [List.getElem?_map, List.getElem?_range h]
    rfl
  · unfold WriteSourceStation.station_row
    rw [hsin1]
    simp [mul_one]
  · have hs := Real.sin_sq_add_cos_sq (WriteSourceStation.phi_rad (5 * i))
    linear_combination (800 : ℝ) ^ 2 * hs

/-- C4 witness: the theorem applied at ordinal 0. -/
theorem claim_c4_stations_witness :
    0 < 72 ∧
    (∃ rows, WriteSourceStation.write_station_rows 800 72 = some rows ∧
      rows.length = 72 ∧
      rows[0]? = some (WriteSourceStation.station_row 800 0 (5 * 0)) ∧
      (WriteSourceStation.station_row 800 0 (5 * 0)).name = "X" ++ toString (0 + 1) ∧
      (WriteSourceStation.station_row 800 0 (5 * 0)).network
        = String.mk [Char.ofNat (65 + 0 / 26), Char.ofNat (65 + 0 % 26)] ∧
      (WriteSourceStation.station_row 800 0 (5 * 0)).cols
        = [800 * Real.sin (WriteSourceStation.phi_rad (5 * 0)),
           800 * Real.cos (WriteSourceStation.phi_rad (5 * 0)), 0, 0] ∧
      (800 * Real.cos (WriteSourceStation.phi_rad (5 * 0))) ^ 2
        + (800 * Real.sin (WriteSourceStation.phi_rad (5 * 0))) ^ 2 = 800 ^ 2) :=
  ⟨by decide, claim_c4_stations 0 (by decide)⟩

/-- C5 counterexample: with count 74 (greater than 73) the station
generation fails on the out-of-range angle-table lookup instead of
producing 74 rows. -/
theorem claim_c5_counterexample :
    WriteSourceStation.write_station_rows 800 74 = none := by
  unfold WriteSourceStation.write_station_rows
  apply option_mapM_eq_none _ _ 73
  · exact List.mem_range.mpr (by norm_num)
  · rw [show WriteSourceStation.phiar_deg[73]? = none from by decide]
    rfl

/-- C5 amended: placeStations uses a fixed 5-degree angular step
independent of count and produces one output row per ordinal for every
count up to 73 (the size of the angle table); for every count greater
than 73 the angle lookup is out of range and the operation fails with
an index error rather than repeating angles. -/
theorem claim_c5_amended (ntr : ℕ) (R : ℝ) :
    (ntr ≤ 73 →
      ∃ rows, WriteSourceStation.write_station_rows R ntr = some rows ∧
        rows.length = ntr ∧
        ∀ i, i < ntr →
          rows[i]? = some (WriteSourceStation.station_row R i (5 * i))) ∧
    (73 < ntr → WriteSourceStation.write_station_rows R ntr = none) := by
  constructor
  · intro h
    refine ⟨_, write_station_rows_le R ntr h, by simp, ?_⟩
    intro i hi
    rw [List.getElem?_map, List.getElem?_range hi]
    rfl
  · intro h
    unfold WriteSourceStation.write_station_rows
    apply option_mapM_eq_none _ _ 73
    · exact List.mem_range.mpr h
    · rw [show WriteSourceStation.phiar_deg[73]? = none from by decide]
      rfl

/-- C5 witness: the amended theorem applied on the success side at the
full table size 73 and on the failure side at count 74. -/
theorem claim_c5_amended_witness :
    (73 ≤ 73 ∧
      (∃ rows, WriteSourceStation.write_station_rows 800 73 = some rows ∧
        rows.length = 73 ∧
        ∀ i, i < 73 →
          rows[i]? = some (WriteSourceStation.station_row 800 i (5 * i)))) ∧
    (73 < 74 ∧ WriteSourceStation.write_station_rows 800 74 = none) :=
  ⟨⟨by decide, (claim_c5_amended 73 800).1 (by decide)⟩,
   ⟨by decide, (claim_c5_amended 74 800).2 (by decide)⟩⟩

/-- Vertex extraction commutes with mapping a vertex transformation
over the triangles. -/
theorem verticesOf_map (f : Zoom.Vec3 → Zoom.Vec3) :
    ∀ m : List Zoom.Tri,
      Zoom.verticesOf (m.map (Zoom.triMap f)) = (Zoom.verticesOf m).map f := by
  intro m
  induction m with
  | nil => rfl
  | cons t m ih =>
      have e1 : Zoom.verticesOf (Zoom.triMap f t :: m.map (Zoom.triMap f))
          = [(Zoom.triMap f t).1, (Zoom.triMap f t).2.1, (Zoom.triMap f t).2.2]
            ++ Zoom.verticesOf (m.map (Zoom.triMap f)) := rfl
      have e2 : Zoom.verticesOf (t :: m)
          = [t.1, t.2.1, t.2.2] ++ Zoom.verticesOf m := rfl
      rw [List.map_cons, e1, e2, List.map_append, ih]
      rfl

/-- A nonempty surface has a nonempty vertex list. -/
theorem verticesOf_ne_nil (m : List Zoom.Tri) (hm : m ≠ []) :
    Zoom.verticesOf m ≠ [] := by
  cases m with
  | nil => exact absurd rfl hm
  | cons t l =>
      intro h
      simp [Zoom.verticesOf, List.flatMap_cons] at h

/-- Folding min over a list shifted by a constant shifts the result. -/
theorem foldl_min_sub (c : ℚ) : ∀ (t : List ℚ) (a : ℚ),
    (t.map (fun r => r - c)).foldl min (a - c) = t.foldl min a - c := by
  intro t
  induction t with
  | nil => intro a; rfl
  | cons b t ih =>
      intro a
      simp only [List.map_cons, List.foldl_cons]
      rw [min_sub_sub_right]
      exact ih (min a b)

/-- Folding max over a list shifted by a constant shifts the result. -/
theorem foldl_max_sub (c : ℚ) : ∀ (t : List ℚ) (a : ℚ),
    (t.map (fun r => r - c)).foldl max (a - c) = t.foldl max a - c := by
  intro t
  induction t with
  | nil => intro a; rfl
  | cons b t ih =>
      intro a
      simp only [List.map_cons, List.foldl_cons]
      rw [max_sub_sub_right]
      exact ih (max a b)

/-- The list minimum of a nonempty list shifted by a constant. -/
theorem listMin_map_sub (c : ℚ) (l : List ℚ) (hl : l ≠ []) :
    Zoom.listMin (l.map (fun r => r - c)) = Zoom.listMin l - c := by
  cases l with
  | nil => exact absurd rfl hl
  | cons a t =>
      simp only [List.map_cons, Zoom.listMin]
      exact foldl_min_sub c t a

/-- The list maximum of a nonempty list shifted by a constant. -/
theorem listMax_map_sub (c : ℚ) (l : List ℚ) (hl : l ≠ []) :
    Zoom.listMax (l.map (fun r => r - c)) = Zoom.listMax l - c := by
  cases l with
  | nil => exact absurd rfl hl
  | cons a t =>
      simp only [List.map_cons, Zoom.listMax]
      exact foldl_max_sub c t a

/-- Translating a nonempty list by minus its min-max midpoint makes the
new min and max sum to zero. -/
theorem center_cancel (l : List ℚ) (hl : l ≠ []) :
    Zoom.listMin (l.map (fun r => r - (Zoom.listMin l + Zoom.listMax l) / 2))
      + Zoom.listMax (l.map (fun r => r - (Zoom.listMin l + Zoom.listMax l) / 2))
      = 0 := by
  rw [listMin_map_sub _ _ hl, listMax_map_sub _ _ hl]
  ring

/-- C7: for a nonempty surface, calc_dims returns componentwise
dimensions max minus min, equal padded length and width given by
the ceiling of 1.2 times the larger of the x and y extents rounded up
to a multiple of 10, and a padded height from the same rule applied to
the z extent. -/
theorem claim_c7_calc_dims (m : List Zoom.Tri) (_hm : m ≠ []) :
    (Zoom.calc_dims m).2.2.1.x = (Zoom.calc_dims m).2.1.x - (Zoom.calc_dims m).1.x ∧
    (Zoom.calc_dims m).2.2.1.y = (Zoom.calc_dims m).2.1.y - (Zoom.calc_dims m).1.y ∧
    (Zoom.calc_dims m).2.2.1.z = (Zoom.calc_dims m).2.1.z - (Zoom.calc_dims m).1.z ∧
    (Zoom.calc_dims m).2.2.2.1
      = ⌈max (Zoom.calc_dims m).2.2.1.x (Zoom.calc_dims m).2.2.1.y * (1.2 : ℚ) / 10⌉
          * 10 ∧
    (Zoom.calc_dims m).2.2.2.2.1 = (Zoom.calc_dims m).2.2.2.1 ∧
    (Zoom.calc_dims m).2.2.2.2.2
      = ⌈(Zoom.calc_dims m).2.2.1.z * (1.2 : ℚ) / 10⌉ * 10 :=
  ⟨rfl, rfl, rfl, rfl, rfl, rfl⟩

/-- C7 witness: the theorem applied to a concrete single-triangle
surface. -/
theorem claim_c7_calc_dims_witness :
    ([((⟨0, 0, 0⟩ : Zoom.Vec3), (⟨3, 1, 2⟩ : Zoom.Vec3), (⟨1, 4, 0⟩ : Zoom.Vec3))]
        : List Zoom.Tri) ≠ [] ∧
    (Zoom.calc_dims [((⟨0, 0, 0⟩ : Zoom.Vec3), (⟨3, 1, 2⟩ : Zoom.Vec3),
        (⟨1, 4, 0⟩ : Zoom.Vec3))]).2.2.2.2.1
      = (Zoom.calc_dims [((⟨0, 0, 0⟩ : Zoom.Vec3), (⟨3, 1, 2⟩ : Zoom.Vec3),
        (⟨1, 4, 0⟩ : Zoom.Vec3))]).2.2.2.1 :=
  ⟨by decide,
   (claim_c7_calc_dims
      [((⟨0, 0, 0⟩ : Zoom.Vec3), (⟨3, 1, 2⟩ : Zoom.Vec3), (⟨1, 4, 0⟩ : Zoom.Vec3))]
      (by decide)).2.2.2.2.1⟩

/-- C8: for a nonempty surface and positive scale factor, the surface
produced by scale_model has bounding-box min plus max equal to zero on
every axis, i.e. its bounding-box center is exactly the origin. -/
theorem claim_c8_centered (m : List Zoom.Tri) (s : ℚ) (hm : m ≠ []) (_hs : 0 < s) :
    Zoom.listMin ((Zoom.verticesOf (Zoom.scale_model m s)).map Zoom.Vec3.x)
      + Zoom.listMax ((Zoom.verticesOf (Zoom.scale_model m s)).map Zoom.Vec3.x) = 0 ∧
    Zoom.listMin ((Zoom.verticesOf (Zoom.scale_model m s)).map Zoom.Vec3.y)
      + Zoom.listMax ((Zoom.verticesOf (Zoom.scale_model m s)).map Zoom.Vec3.y) = 0 ∧
    Zoom.listMin ((Zoom.verticesOf (Zoom.scale_model m s)).map Zoom.Vec3.z)
      + Zoom.listMax ((Zoom.verticesOf (Zoom.scale_model m s)).map Zoom.Vec3.z) = 0 := by
  have hsm : Zoom.scaledMesh m s ≠ [] := by
    unfold Zoom.scaledMesh
    intro h
    exact hm (List.map_eq_nil_iff.mp h)
  have hvs : Zoom.verticesOf (Zoom.scaledMesh m s) ≠ [] := verticesOf_ne_nil _ hsm
  refine ⟨?_, ?_, ?_⟩
  · have hx : (Zoom.verticesOf (Zoom.scale_model m s)).map Zoom.Vec3.x
        = ((Zoom.verticesOf (Zoom.scaledMesh m s)).map Zoom.Vec3.x).map
            (fun r => r -
              (Zoom.listMin ((Zoom.verticesOf (Zoom.scaledMesh m s)).map Zoom.Vec3.x)
                + Zoom.listMax ((Zoom.verticesOf (Zoom.scaledMesh m s)).map Zoom.Vec3.x))
                / 2) := by
      unfold Zoom.scale_model
      rw [verticesOf_map, List.map_map, List.map_map]
      rfl
    rw [hx]
    exact center_cancel _ (fun h => hvs (List.map_eq_nil_iff.mp h))
  · have hy : (Zoom.verticesOf (Zoom.scale_model m s)).map Zoom.Vec3.y
        = ((Zoom.verticesOf (Zoom.scaledMesh m s)).map Zoom.Vec3.y).map
            (fun r => r -
              (Zoom.listMin ((Zoom.verticesOf (Zoom.scaledMesh m s)).map Zoom.Vec3.y)
                + Zoom.listMax ((Zoom.verticesOf (Zoom.scaledMesh m s)).map Zoom.Vec3.y))
                / 2) := by
      unfold Zoom.scale_model
      rw [verticesOf_map, List.map_map, List.map_map]
      rfl
    rw [hy]
    exact center_cancel _ (fun h => hvs (List.map_eq_nil_iff.mp h))
  · have hz : (Zoom.verticesOf (Zoom.scale_model m s)).map Zoom.Vec3.z
        = ((Zoom.verticesOf (Zoom.scaledMesh m s)).map Zoom.Vec3.z).map
            (fun r => r -
              (Zoom.listMin ((Zoom.verticesOf (Zoom.scaledMesh m s)).map Zoom.Vec3.z)
                + Zoom.listMax ((Zoom.verticesOf (Zoom.scaledMesh m s)).map Zoom.Vec3.z))
                / 2) := by
      unfold Zoom.scale_model
      rw [verticesOf_map, List.map_map, List.map_map]
      rfl
    rw [hz]
    exact center_cancel _ (fun h => hvs (List.map_eq_nil_iff.mp h))

/-- C8 witness: the theorem applied to a concrete single-triangle
surface with scale factor 2. -/
theorem claim_c8_centered_witness :
    ([((⟨0, 0, 0⟩ : Zoom.Vec3), (⟨3, 1, 2⟩ : Zoom.Vec3), (⟨1, 4, 0⟩ : Zoom.Vec3))]
        : List Zoom.Tri) ≠ [] ∧ (0 : ℚ) < 2 ∧
    Zoom.listMin ((Zoom.verticesOf (Zoom.scale_model
        [((⟨0, 0, 0⟩ : Zoom.Vec3), (⟨3, 1, 2⟩ : Zoom.Vec3), (⟨1, 4, 0⟩ : Zoom.Vec3))]
        2)).map Zoom.Vec3.x)
      + Zoom.listMax ((Zoom.verticesOf (Zoom.scale_model
        [((⟨0, 0, 0⟩ : Zoom.Vec3), (⟨3, 1, 2⟩ : Zoom.Vec3), (⟨1, 4, 0⟩ : Zoom.Vec3))]
        2)).map Zoom.Vec3.x) = 0 :=
  ⟨by decide, by decide,
   (claim_c8_centered
      [((⟨0, 0, 0⟩ : Zoom.Vec3), (⟨3, 1, 2⟩ : Zoom.Vec3), (⟨1, 4, 0⟩ : Zoom.Vec3))]
      2 (by decide) (by decide)).1⟩

/-- C9 counterexample: at the concrete scale factor 0 (which violates
the claimed precondition) scale_model completes and returns a result;
it does not fail with InvalidScaleError. -/
theorem claim_c9_counterexample :
    Zoom.scale_model_run
        [((⟨0, 0, 0⟩ : Zoom.Vec3), (⟨1, 0, 0⟩ : Zoom.Vec3), (⟨0, 1, 0⟩ : Zoom.Vec3))] 0
      ≠ Except.error Zoom.ZoomError.invalidScale := by
  intro h
  exact Except.noConfusion h

/-- C9 amended: scale_model performs no scale-factor validation at all:
for every surface and every scale factor, including zero and negative
ones, the operation completes and returns a result, and
InvalidScaleError is never raised. -/
theorem claim_c9_amended (m : List Zoom.Tri) (s : ℚ) :
    ∃ out, Zoom.scale_model_run m s = Except.ok out :=
  ⟨_, rfl⟩

/-- Every character produced by the digit accumulator beyond its seed
is a decimal digit character. -/
theorem natDigitsCore_chars : ∀ (fuel n : ℕ) (acc : List Char) (c : Char),
    c ∈ Py.natDigitsCore fuel n acc →
      c ∈ acc ∨ ∃ d, d < 10 ∧ c = Char.ofNat (48 + d) := by
  intro fuel
  induction fuel with
  | zero => intro n acc c hc; exact Or.inl hc
  | succ fuel ih =>
      intro n acc c hc
      unfold Py.natDigitsCore at hc
      by_cases hn : n < 10
      · rw [if_pos hn] at hc
        rcases List.mem_cons.mp hc with rfl | h2
        · exact Or.inr ⟨n, hn, rfl⟩
        · exact Or.inl h2
      · rw [if_neg hn] at hc
        rcases ih _ _ _ hc with h2 | h2
        · rcases List.mem_cons.mp h2 with rfl | h3
          · exact Or.inr ⟨n % 10, Nat.mod_lt _ (by norm_num), rfl⟩
          · exact Or.inl h3
        · exact Or.inr h2

/-- Decimal digit characters are not the newline character. -/
theorem digit_char_ne_newline : ∀ d, d < 10 → Char.ofNat (48 + d) ≠ '\n' := by decide

/-- The decimal rendering of a natural number contains no newline. -/
theorem natRender_no_newline (n : ℕ) : '\n' ∉ Py.natRender n := by
  intro h
  rcases natDigitsCore_chars _ _ _ _ h with h2 | ⟨d, hd, he⟩
  · simp at h2
  · exact digit_char_ne_newline d hd he.symm

/-- The digit accumulator never discards its seed. -/
theorem natDigitsCore_ne_nil_of_acc : ∀ (fuel n : ℕ) (acc : List Char),
    acc ≠ [] → Py.natDigitsCore fuel n acc ≠ [] := by
  intro fuel
  induction fuel with
  | zero => intro n acc h; exact h
  | succ fuel ih =>
      intro n acc h
      unfold Py.natDigitsCore
      by_cases hn : n < 10
      · rw [if_pos hn]; exact List.cons_ne_nil _ _
      · rw [if_neg hn]; exact ih _ _ (List.cons_ne_nil _ _)

/-- The decimal rendering of a natural number is nonempty. -/
theorem natRender_ne_nil (n : ℕ) : Py.natRender n ≠ [] := by
  unfold Py.natRender Py.natDigitsCore
  by_cases hn : n < 10
  · rw [if_pos hn]; exact List.cons_ne_nil _ _
  · rw [if_neg hn]; exact natDigitsCore_ne_nil_of_acc _ _ _ (List.cons_ne_nil _ _)

/-- The decimal rendering of an integer contains no newline. -/
theorem intRender_no_newline (z : ℤ) : '\n' ∉ Py.intRender z := by
  unfold Py.intRender
  by_cases hz : z < 0
  · rw [if_pos hz]
    intro h
    rcases List.mem_cons.mp h with he | h2
    · exact absurd he (by decide)
    · exact natRender_no_newline _ h2
  · rw [if_neg hz]; exact natRender_no_newline _

/-- The decimal rendering of an integer is nonempty. -/
theorem intRender_ne_nil (z : ℤ) : Py.intRender z ≠ [] := by
  unfold Py.intRender
  by_cases hz : z < 0
  · rw [if_pos hz]; exact List.cons_ne_nil _ _
  · rw [if_neg hz]; exact natRender_ne_nil _

/-- A character absent from the separator and from every joined piece
is absent from the join. -/
theorem pyJoin_not_mem (c : Char) (sep : List Char) (hsep : c ∉ sep) :
    ∀ ls : List (List Char), (∀ s ∈ ls, c ∉ s) → c ∉ Py.pyJoin sep ls := by
  intro ls
  induction ls with
  | nil => intro _; simp [Py.pyJoin]
  | cons a t ih =>
      intro h
      cases t with
      | nil => exact h a (by simp)
      | cons b t2 =>
          intro hc
          have e : Py.pyJoin sep (a :: b :: t2)
              = a ++ sep ++ Py.pyJoin sep (b :: t2) := rfl
          rw [e] at hc
          rcases List.mem_append.mp hc with hc1 | hc2
          · rcases List.mem_append.mp hc1 with hc3 | hc4
            · exact h a (by simp) hc3
            · exact hsep hc4
          · exact ih (fun s hs => h s (by simp [hs])) hc2

/-- The join of a nonempty list of nonempty pieces is nonempty. -/
theorem pyJoin_ne_nil (sep : List Char) :
    ∀ ls : List (List Char), ls ≠ [] → (∀ s ∈ ls, s ≠ []) →
      Py.pyJoin sep ls ≠ [] := by
  intro ls
  induction ls with
  | nil => intro h _; exact absurd rfl h
  | cons a t _ =>
      intro _ h
      cases t with
      | nil => exact h a (by simp)
      | cons b t2 =>
          have e : Py.pyJoin sep (a :: b :: t2)
              = a ++ sep ++ Py.pyJoin sep (b :: t2) := rfl
          rw [e]
          intro hnil
          rcases List.append_eq_nil.mp hnil with ⟨h1, _⟩
          rcases List.append_eq_nil.mp h1 with ⟨h2, _⟩
          exact h a (by simp) h2

/-- Joining newline-free pieces with the newline separator yields one
separator per gap: the newline count is the piece count minus one. -/
theorem pyJoin_count_newline :
    ∀ ls : List (List Char), ls ≠ [] → (∀ s ∈ ls, '\n' ∉ s) →
      (Py.pyJoin ['\n'] ls).count '\n' + 1 = ls.length := by
  intro ls
  induction ls with
  | nil => intro h _; exact absurd rfl h
  | cons a t ih =>
      intro _ h
      cases t with
      | nil =>
          have e : Py.pyJoin ['\n'] [a] = a := rfl
          rw [e, List.count_eq_zero.mpr (h a (by simp))]
          rfl
      | cons b t2 =>
          have e : Py.pyJoin ['\n'] (a :: b :: t2)
              = a ++ ['\n'] ++ Py.pyJoin ['\n'] (b :: t2) := rfl
          rw [e, List.count_append, List.count_append,
              List.count_eq_zero.mpr (h a (by simp))]
          have hih := ih (by simp) (fun s hs => h s (by simp [hs]))
          have hc1 : (['\n'] : List Char).count '\n' = 1 := by decide
          rw [hc1]
          simp only [List.length_cons] at hih ⊢
          omega

/-- A nonempty list whose members avoid a character has a last element
different from that character. -/
theorem getLast_ne_of_not_mem {l : List Char} {c0 : Char} (h : l ≠ [])
    (hmem : c0 ∉ l) : ∃ c, l.getLast? = some c ∧ c ≠ c0 := by
  obtain ⟨c, hc⟩ := Option.isSome_iff_exists.mp (List.getLast?_isSome.mpr h)
  exact ⟨c, hc, fun he => hmem (he ▸ List.mem_of_getLast?_eq_some hc)⟩

/-- The join on newlines of nonempty newline-free pieces ends in a
character other than newline. -/
theorem pyJoin_getLast_ne_newline :
    ∀ ls : List (List Char), ls ≠ [] → (∀ s ∈ ls, s ≠ [] ∧ '\n' ∉ s) →
      ∃ c, (Py.pyJoin ['\n'] ls).getLast? = some c ∧ c ≠ '\n' := by
  intro ls
  induction ls with
  | nil => intro h _; exact absurd rfl h
  | cons a t ih =>
      intro _ h
      cases t with
      | nil => exact getLast_ne_of_not_mem (h a (by simp)).1 (h a (by simp)).2
      | cons b t2 =>
          obtain ⟨c, hc, hcne⟩ := ih (by simp) (fun s hs => h s (by simp [hs]))
          refine ⟨c, ?_, hcne⟩
          have e : Py.pyJoin ['\n'] (a :: b :: t2)
              = a ++ ['\n'] ++ Py.pyJoin ['\n'] (b :: t2) := rfl
          rw [e, List.getLast?_append, hc]
          rfl

/-- A rendered row contains no newline when the number renderer never
produces one. -/
theorem render_row_no_newline (render : ℚ → List Char)
    (hr : ∀ q, render q ≠ [] ∧ '\n' ∉ render q) (row : List ℚ) :
    '\n' ∉ TomographyModel.render_row render row := by
  apply pyJoin_not_mem _ _ (by decide)
  intro s hs
  obtain ⟨q, _, rfl⟩ := List.mem_map.mp hs
  exact (hr q).2

/-- A rendered nonempty row is nonempty when the number renderer never
produces the empty string. -/
theorem render_row_ne_nil (render : ℚ → List Char)
    (hr : ∀ q, render q ≠ [] ∧ '\n' ∉ render q) (row : List ℚ)
    (hrow : row ≠ []) : TomographyModel.render_row render row ≠ [] := by
  apply pyJoin_ne_nil
  · intro h; exact hrow (List.map_eq_nil_iff.mp h)
  · intro s hs
    obtain ⟨q, _, rfl⟩ := List.mem_map.mp hs
    exact (hr q).1

/-- The third header line contains no newline. -/
theorem header_line3_no_newline (p : TomographyModel.TomoParams) :
    '\n' ∉ TomographyModel.header_line3 p := by
  unfold TomographyModel.header_line3
  intro h
  rcases List.mem_append.mp h with h1 | h2
  · rcases List.mem_append.mp h1 with h3 | h4
    · exact intRender_no_newline _ h3
    · rcases List.mem_cons.mp h4 with he | h5
      · exact absurd he (by decide)
      · exact intRender_no_newline _ h5
  · rcases List.mem_cons.mp h2 with he | h6
    · exact absurd he (by decide)
    · exact intRender_no_newline _ h6

/-- The header holds exactly four newline characters, one ending each
of its four lines. -/
theorem header_str_count_newline (render : ℚ → List Char)
    (hr : ∀ q, render q ≠ [] ∧ '\n' ∉ render q)
    (p : TomographyModel.TomoParams) :
    (TomographyModel.header_str render p).count '\n' = 4 := by
  unfold TomographyModel.header_str
  simp [List.count_append, List.count_cons_self,
        List.count_eq_zero.mpr (render_row_no_newline render hr (TomographyModel.header_row1 p)),
        List.count_eq_zero.mpr (render_row_no_newline render hr (TomographyModel.header_row2 p)),
        List.count_eq_zero.mpr (render_row_no_newline render hr (TomographyModel.header_row4 p)),
        List.count_eq_zero.mpr (header_line3_no_newline p)]

/-- C10: for positive dimensions and spacing and any newline-free
nonempty number renderer, the file holds four newline-terminated header
lines and nz * ny * nx data lines joined by single newlines with none
after the last: the total newline count is 3 + nz * ny * nx and the
file ends in a non-newline character, so line-counting consumers see
4 + nz * ny * nx lines only if they accept an unterminated final
line. -/
theorem claim_c10_no_trailing_newline (render : ℚ → List Char)
    (hr : ∀ q, render q ≠ [] ∧ '\n' ∉ render q) (p : TomographyModel.TomoParams)
    (hl : 0 < p.length) (hw : 0 < p.width) (hh : 0 < p.height)
    (hs : 0 < p.mesh_size) :
    (TomographyModel.header_str render p).count '\n' = 4 ∧
    (TomographyModel.tomo_file render p).count '\n'
      = 3 + TomographyModel.nzN p * (TomographyModel.nyN p * TomographyModel.nxN p) ∧
    TomographyModel.tomo_file render p ≠ [] ∧
    ∃ c, (TomographyModel.tomo_file render p).getLast? = some c ∧ c ≠ '\n' := by
  have hN : 0 < TomographyModel.nzN p
      * (TomographyModel.nyN p * TomographyModel.nxN p) := by
    have h1 : (0 : ℤ) < TomographyModel.nx p := Int.ceil_pos.mpr (div_pos hl hs)
    have h2 : (0 : ℤ) < TomographyModel.ny p := Int.ceil_pos.mpr (div_pos hw hs)
    have h3 : (0 : ℤ) < TomographyModel.nz p := Int.ceil_pos.mpr (div_pos hh hs)
    have e1 : 0 < TomographyModel.nxN p := by unfold TomographyModel.nxN; omega
    have e2 : 0 < TomographyModel.nyN p := by unfold TomographyModel.nyN; omega
    have e3 : 0 < TomographyModel.nzN p := by unfold TomographyModel.nzN; omega
    exact Nat.mul_pos e3 (Nat.mul_pos e2 e1)
  set dls := (TomographyModel.model_values p).map
      (fun s => TomographyModel.render_row render (TomographyModel.sample_row s))
    with hdls
  have hdlen : dls.length
      = TomographyModel.nzN p * (TomographyModel.nyN p * TomographyModel.nxN p) := by
    rw [hdls, List.length_map]
    exact model_values_length p
  have hdne : dls ≠ [] := by
    intro h
    rw [h] at hdlen
    exact absurd hdlen.symm (Nat.ne_of_gt hN)
  have hdprops : ∀ s ∈ dls, s ≠ [] ∧ '\n' ∉ s := by
    intro s hs2
    rw [hdls] at hs2
    obtain ⟨smp, _, rfl⟩ := List.mem_map.mp hs2
    refine ⟨render_row_ne_nil render hr _ ?_, render_row_no_newline render hr _⟩
    simp [TomographyModel.sample_row]
  have hjoin_count := pyJoin_count_newline dls hdne (fun s hs2 => (hdprops s hs2).2)
  have hjoin_last := pyJoin_getLast_ne_newline dls hdne hdprops
  have hheader := header_str_count_newline render hr p
  refine ⟨hheader, ?_, ?_, ?_⟩
  · unfold TomographyModel.tomo_file
    rw [← hdls, List.count_append, hheader]
    omega
  · unfold TomographyModel.tomo_file
    rw [← hdls]
    intro h
    rcases List.append_eq_nil.mp h with ⟨h1, _⟩
    rw [h1] at hheader
    simp at hheader
  · obtain ⟨c, hc, hcne⟩ := hjoin_last
    refine ⟨c, ?_, hcne⟩
    unfold TomographyModel.tomo_file
    rw [← hdls, List.getLast?_append, hc]
    rfl

/-- C10 witness: the theorem applied to a constant single-character
renderer and the concrete all-40 parameters. -/
theorem claim_c10_no_trailing_newline_witness :
    (∀ q : ℚ, (fun _ : ℚ => ['v']) q ≠ [] ∧ '\n' ∉ (fun _ : ℚ => ['v']) q) ∧
    (0 : ℚ) < (⟨40, 40, 40, 40, 3000, 5000, 1500, 3000, 2500, 1⟩ :
        TomographyModel.TomoParams).length ∧
    ((TomographyModel.header_str (fun _ : ℚ => ['v'])
        ⟨40, 40, 40, 40, 3000, 5000, 1500, 3000, 2500, 1⟩).count '\n' = 4 ∧
     (TomographyModel.tomo_file (fun _ : ℚ => ['v'])
        ⟨40, 40, 40, 40, 3000, 5000, 1500, 3000, 2500, 1⟩).count '\n'
       = 3 + TomographyModel.nzN ⟨40, 40, 40, 40, 3000, 5000, 1500, 3000, 2500, 1⟩
           * (TomographyModel.nyN ⟨40, 40, 40, 40, 3000, 5000, 1500, 3000, 2500, 1⟩
              * TomographyModel.nxN ⟨40, 40, 40, 40, 3000, 5000, 1500, 3000, 2500, 1⟩) ∧
     TomographyModel.tomo_file (fun _ : ℚ => ['v'])
        ⟨40, 40, 40, 40, 3000, 5000, 1500, 3000, 2500, 1⟩ ≠ [] ∧
     ∃ c, (TomographyModel.tomo_file (fun _ : ℚ => ['v'])
        ⟨40, 40, 40, 40, 3000, 5000, 1500, 3000, 2500, 1⟩).getLast? = some c ∧
          c ≠ '\n') :=
  ⟨by intro q; exact ⟨by simp, by simp⟩, by decide,
   claim_c10_no_trailing_newline (fun _ : ℚ => ['v'])
     (by intro q; exact ⟨by simp, by simp⟩)
     ⟨40, 40, 40, 40, 3000, 5000, 1500, 3000, 2500, 1⟩
     (by decide) (by decide) (by decide) (by decide)⟩

/-- C2 witness: the theorem applied at length, width, height and
spacing all 40, where the counts are all 1 and the model has exactly
one data line. -/
theorem claim_c2_model_grid_witness :
    (0 : ℚ) < (⟨40, 40, 40, 40, 3000, 5000, 1500, 3000, 2500, 1⟩ :
        TomographyModel.TomoParams).length ∧
    (0 : ℚ) < (⟨40, 40, 40, 40, 3000, 5000, 1500, 3000, 2500, 1⟩ :
        TomographyModel.TomoParams).mesh_size ∧
    TomographyModel.nxN ⟨40, 40, 40, 40, 3000, 5000, 1500, 3000, 2500, 1⟩ = 1 ∧
    TomographyModel.nyN ⟨40, 40, 40, 40, 3000, 5000, 1500, 3000, 2500, 1⟩ = 1 ∧
    TomographyModel.nzN ⟨40, 40, 40, 40, 3000, 5000, 1500, 3000, 2500, 1⟩ = 1 ∧
    (TomographyModel.model_values
        ⟨40, 40, 40, 40, 3000, 5000, 1500, 3000, 2500, 1⟩).length = 1 := by
  have hx : TomographyModel.nxN
      (⟨40, 40, 40, 40, 3000, 5000, 1500, 3000, 2500, 1⟩ :
        TomographyModel.TomoParams) = 1 := by
    norm_num [TomographyModel.nxN, TomographyModel.nx]
  have hy : TomographyModel.nyN
      (⟨40, 40, 40, 40, 3000, 5000, 1500, 3000, 2500, 1⟩ :
        TomographyModel.TomoParams) = 1 := by
    norm_num [TomographyModel.nyN, TomographyModel.ny]
  have hz : TomographyModel.nzN
      (⟨40, 40, 40, 40, 3000, 5000, 1500, 3000, 2500, 1⟩ :
        TomographyModel.TomoParams) = 1 := by
    norm_num [TomographyModel.nzN, TomographyModel.nz]
  have hlen := (claim_c2_model_grid
      ⟨40, 40, 40, 40, 3000, 5000, 1500, 3000, 2500, 1⟩
      (by decide) (by decide) (by decide) (by decide)).2.1
  refine ⟨by decide, by decide, hx, hy, hz, ?_⟩
  rw [hlen, hx, hy, hz]
